import Mathlib

/-!
Verification of the SeisHub database client (`obspy/seishub/client.py`).

The development shallowly embeds the request-construction and
response-decoding pipeline of the client: parameter normalization
(`Client._fetch`), the deprecated-keyword renaming applied at the mapper
boundary, URL construction, the low-level HTTP request validation
(`Client._HTTP_request`, `RequestWithMethod`), waveform window
padding/trimming (`_WaveformMapperClient.getWaveform`), waveform/preview
response decoding, poles-and-zeros extraction
(`_StationMapperClient.getPAZ`), KML placemark rendering
(`_EventMapperClient.getKML`) and `saveKML`'s overwrite protection.

Python dictionaries are modelled as association lists with dict
assignment/deletion semantics; Python strings as `String`; times and
numeric metadata as `ℚ`.
-/

/-! ### Python dict model -/

/-- Dictionary lookup: value stored at the first occurrence of the key. -/
def dictGet : List (String × α) → String → Option α
  | [], _ => none
  | (k', v) :: rest, k => if k' = k then some v else dictGet rest k

/-- Dictionary assignment `d[k] = v`: replaces the value at an existing key
in place, otherwise appends the new binding (Python dict insertion order). -/
def dictSet : List (String × α) → String → α → List (String × α)
  | [], k, v => [(k, v)]
  | (k', v') :: rest, k, v =>
      if k' = k then (k, v) :: rest else (k', v') :: dictSet rest k v

/-- Dictionary deletion `del d[k]`. -/
def dictDel : List (String × α) → String → List (String × α)
  | [], _ => []
  | (k', v') :: rest, k =>
      if k' = k then dictDel rest k else (k', v') :: dictDel rest k

/-- The keys of a dictionary, in order. -/
def keysOf (d : List (String × α)) : List String := d.map Prod.fst

/-! ### Keyword argument values

Values supplied as keyword arguments to the client: `None`, strings, and
2-element tuples/lists of strings (the range syntax folded by `_fetch`). -/

/-- A Python value passed as a keyword argument. -/
inductive Value where
  | vNone
  | vStr (s : String)
  | vTup2 (a b : String)
  | vList2 (a b : String)
deriving DecidableEq

/-- Python truthiness of a keyword value (`if not value: continue`). -/
def Value.truthy : Value → Bool
  | .vNone => false
  | .vStr s => s != ""
  | .vTup2 _ _ => true
  | .vList2 _ _ => true

/-- Python `str()` of a keyword value. -/
def Value.pyStr : Value → String
  | .vNone => "None"
  | .vStr s => s
  | .vTup2 a b => "('" ++ a ++ "', '" ++ b ++ "')"
  | .vList2 a b => "['" ++ a ++ "', '" ++ b ++ "']"

/-- Both components of a 2-element range value stringify to a non-empty
string (scalar values are unconstrained). -/
def Value.rangeNonempty : Value → Prop
  | .vTup2 a b => a ≠ "" ∧ b ≠ ""
  | .vList2 a b => a ≠ "" ∧ b ≠ ""
  | _ => True

/-- Keyword-argument dictionary (`kwargs`). -/
abbrev Kwargs := List (String × Value)

/-- Outgoing query-parameter dictionary (`params`), all values stringified. -/
abbrev Params := List (String × String)

/-! ### Parameter normalization (`Client._fetch`, lines 117-135) -/

/-- `DEPRECATED_KEYWORDS` table of the source: deprecated name to canonical
name. -/
def DEPRECATED_KEYWORDS : List (String × String) :=
  [("network_id", "network"), ("station_id", "station"),
   ("location_id", "location"), ("channel_id", "channel"),
   ("start_datetime", "starttime"), ("end_datetime", "endtime")]

/-- `KEYWORDS` table of the source: canonical name to wire name, applied by
`Client._fetch` before encoding. -/
def KEYWORDS : List (String × String) :=
  [("network", "network_id"), ("station", "station_id"),
   ("location", "location_id"), ("channel", "channel_id"),
   ("starttime", "start_datetime"), ("endtime", "end_datetime")]

/-- One step of the keyword-mapping loop of `_fetch`:
`kwargs[value] = kwargs[key]; del kwargs[key]` when `key` is present. -/
def mapStep (kw : Kwargs) (p : String × String) : Kwargs :=
  match dictGet kw p.1 with
  | some v => dictDel (dictSet kw p.2 v) p.1
  | none => kw

/-- The keyword-mapping loop of `_fetch` over a rename table. -/
def mapKeywords : List (String × String) → Kwargs → Kwargs
  | [], kw => kw
  | p :: rest, kw => mapKeywords rest (mapStep kw p)

/-- One step of the range/empty-value loop of `_fetch`: skip falsy values,
fold 2-element tuples/lists into `min_`/`max_` entries, stringify the rest. -/
def foldStep (params : Params) (k : String) (v : Value) : Params :=
  if v.truthy then
    match v with
    | Value.vTup2 a b => dictSet (dictSet params ("min_" ++ k) a) ("max_" ++ k) b
    | Value.vList2 a b => dictSet (dictSet params ("min_" ++ k) a) ("max_" ++ k) b
    | v => dictSet params k v.pyStr
  else params

/-- The range/empty-value loop of `_fetch` (lines 124-135). -/
def foldParams : Kwargs → Params → Params
  | [], params => params
  | (k, v) :: rest, params => foldParams rest (foldStep params k v)

/-- The full parameter processing of `Client._fetch` (lines 117-135): the
keyword mapping over `KEYWORDS` followed by range folding into `params`. -/
def fetchParams (kw : Kwargs) : Params :=
  foldParams (mapKeywords KEYWORDS kw) []

/-- Re-interpret an outgoing parameter dictionary as keyword arguments
(every value a string), as would happen if it were normalized again. -/
def wrapParams (p : Params) : Kwargs := p.map (fun q => (q.1, Value.vStr q.2))

/-- Modelled from the spec: the `deprecated_keywords` decorator of
`obspy.core.util` (declared but not contained in the source under
verification) renames any deprecated keyword present to its canonical name;
the canonical key wins if both are present. One renaming step. -/
def deprStep (kw : Kwargs) (p : String × String) : Kwargs :=
  match dictGet kw p.1 with
  | some v =>
      if (dictGet kw p.2).isSome then dictDel kw p.1
      else dictDel (dictSet kw p.2 v) p.1
  | none => kw

/-- Modelled from the spec: the `deprecated_keywords` decorator applied over
a whole deprecated-to-canonical table. -/
def applyDeprecatedKeywords : List (String × String) → Kwargs → Kwargs
  | [], kw => kw
  | p :: rest, kw => applyDeprecatedKeywords rest (deprStep kw p)

/-- The keyword pipeline of a mapper-client operation: the
deprecated-keyword decorator at the call boundary, then the parameter
processing of `Client._fetch`. -/
def operationParams (deprTable : List (String × String)) (kw : Kwargs) : Params :=
  fetchParams (applyDeprecatedKeywords deprTable kw)

/-! ### URL construction (`Client._fetch` line 137, path constants) -/

/-- Characters kept verbatim by `urllib.quote_plus`. -/
def isUrlSafe (c : Char) : Bool :=
  c.isAlphanum || c == '_' || c == '.' || c == '-'

/-- Upper-case hexadecimal digit. -/
def hexDigit (n : ℕ) : Char :=
  if n < 10 then Char.ofNat ('0'.toNat + n) else Char.ofNat ('A'.toNat + n - 10)

/-- `urllib.quote_plus`: safe characters kept, space becomes `+`, the rest
percent-encoded byte-wise. -/
def quotePlus (s : String) : String :=
  String.mk (s.data.foldr
    (fun c acc =>
      if isUrlSafe c then c :: acc
      else if c == ' ' then '+' :: acc
      else '%' :: hexDigit (c.toNat / 16 % 16) :: hexDigit (c.toNat % 16) :: acc)
    [])

/-- `urllib.urlencode`: key=value pairs joined by `&`. -/
def urlencode (params : Params) : String :=
  String.intercalate "&" (params.map (fun p => quotePlus p.1 ++ "=" ++ quotePlus p.2))

/-- The final fetch address built by `_fetch`:
`base_url + url + '?' + urlencode(params)`. -/
def remoteaddr (base_url url : String) (params : Params) : String :=
  base_url ++ url ++ "?" ++ urlencode params

/-- Address of a `_fetch` call for a fixed operation path. -/
def fetchAddr (base_url url : String) (kw : Kwargs) : String :=
  remoteaddr base_url url (fetchParams kw)

/-- Operation path used by `_WaveformMapperClient.getWaveform` (line 466). -/
def getWaveform_url : String := "/seismology/waveform/getWaveform"

/-- Operation path used by `_WaveformMapperClient.getPreview`. -/
def getPreview_url : String := "/seismology/waveform/getPreview"

/-- Operation path used by `_StationMapperClient.getList`. -/
def stationGetList_url : String := "/seismology/station/getList"

/-- Operation path used by `_EventMapperClient.getList`. -/
def eventGetList_url : String := "/seismology/event/getList"

/-- Path built by `_BaseRESTClient.getResource`/`getXMLResource`
(lines 207-208). -/
def getResource_url (package resourcetype resource_name : String) : String :=
  "/xml/" ++ package ++ "/" ++ resourcetype ++ "/" ++ resource_name

/-- URL built by `_BaseRESTClient.putResource`/`deleteResource` via
`'/'.join([...])` (lines 245-246). -/
def putResource_url (base_url package resourcetype resource_name : String) : String :=
  String.intercalate "/" [base_url, "xml", package, resourcetype, resource_name]

/-! ### Low-level HTTP request validation (`Client._HTTP_request`,
`RequestWithMethod`) -/

/-- `HTTP_ACCEPTED_DATA_METHODS` of the source. -/
def HTTP_ACCEPTED_DATA_METHODS : List String := ["PUT", "POST"]

/-- `HTTP_ACCEPTED_NODATA_METHODS` of the source. -/
def HTTP_ACCEPTED_NODATA_METHODS : List String := ["HEAD", "GET", "DELETE"]

/-- `HTTP_ACCEPTED_METHODS` of the source. -/
def HTTP_ACCEPTED_METHODS : List String :=
  HTTP_ACCEPTED_DATA_METHODS ++ HTTP_ACCEPTED_NODATA_METHODS

/-- Outcome of `Client._HTTP_request` up to the point where the request
object is handed to the network layer: either a fast failure
(`ValueError`/`TypeError`, raised before any network call) or the
constructed request. -/
inductive HTTPOutcome where
  | valueError (msg : String)
  | typeError (msg : String)
  | request (method url data : String)
deriving DecidableEq

/-- The validation prefix of `Client._HTTP_request` (lines 161-170). -/
def HTTP_request (url method xml_string : String) : HTTPOutcome :=
  if method ∉ HTTP_ACCEPTED_METHODS then
    HTTPOutcome.valueError "Method must be one of ['PUT', 'POST', 'HEAD', 'GET', 'DELETE']"
  else if method ∈ HTTP_ACCEPTED_DATA_METHODS ∧ xml_string = "" then
    HTTPOutcome.typeError ("Missing data for " ++ method ++ " request.")
  else if method ∈ HTTP_ACCEPTED_NODATA_METHODS ∧ xml_string ≠ "" then
    HTTPOutcome.typeError ("Unexpected data for " ++ method ++ " request.")
  else HTTPOutcome.request method url xml_string

/-- `RequestWithMethod.__init__` (lines 944-950): rejects methods outside
the accepted set before constructing the request object. -/
def RequestWithMethod_init (method : String) : Except String String :=
  if method ∉ HTTP_ACCEPTED_METHODS then
    Except.error "HTTP Method not supported. Supported are: ['PUT', 'POST', 'HEAD', 'GET', 'DELETE']."
  else Except.ok method

/-! ### Waveform window padding and trimming
(`_WaveformMapperClient.getWaveform`, lines 440-477) -/

/-- Modelled from the spec: the `BAND_CODE` table of `obspy.core.util`
(imported but not contained in the source under verification) maps a
channel band code to its nominal sample rate, following the SEED band-code
convention the spec refers to. -/
def BAND_CODE : List (Char × ℚ) :=
  [('F', 1000), ('G', 1000), ('D', 250), ('C', 250), ('E', 80), ('H', 80),
   ('S', 10), ('B', 10), ('M', 1), ('L', 1), ('V', 1/10), ('U', 1/100)]

/-- Nominal sample rate looked up from the channel's first character
(`BAND_CODE[kwargs['channel'][0]]`). -/
def bandRate (channel : String) : Option ℚ :=
  channel.data.head?.bind (fun c => BAND_CODE.lookup c)

/-- The time window actually fetched and the window the stream is trimmed
back to afterwards. -/
structure WaveformPlan where
  fetchStart : ℚ
  fetchEnd : ℚ
  trimWindow : Option (ℚ × ℚ)
deriving DecidableEq

/-- The window arithmetic of `getWaveform` (lines 454-459, 476-477): with a
channel given, pad both ends by `2.0 / BAND_CODE[band_code]` and remember
the original window for trimming; without a channel, fetch the requested
window unpadded and do not trim. `none` models the `KeyError` on an unknown
band code. -/
def getWaveformPlan (channel : String) (starttime endtime : ℚ) : Option WaveformPlan :=
  if channel = "" then some ⟨starttime, endtime, none⟩
  else
    match bandRate channel with
    | none => none
    | some r => some ⟨starttime - 2 / r, endtime + 2 / r, some (starttime, endtime)⟩

/-- Modelled from the spec: a uniformly sampled stream span of the external
time-series data model (`obspy.core`, consumed but not contained in the
source under verification): first sample time, sample spacing, number of
samples. -/
structure StreamSpan where
  t0 : ℚ
  delta : ℚ
  npts : ℕ
deriving DecidableEq

/-- Time of the last sample. -/
def StreamSpan.lastTime (st : StreamSpan) : ℚ :=
  st.t0 + (((st.npts : ℤ) - 1 : ℤ) : ℚ) * st.delta

/-- Index of the sample nearest to a requested time, clamped to the valid
index range. -/
def StreamSpan.nearestIdx (st : StreamSpan) (t : ℚ) : ℤ :=
  max 0 (min ((st.npts : ℤ) - 1) (round ((t - st.t0) / st.delta)))

/-- Modelled from the spec: `Stream.trim(a, b)` with nearest-sample
alignment, part of the external time-series data model: keep the samples
from the one nearest to `a` through the one nearest to `b`. -/
def StreamSpan.trim (st : StreamSpan) (a b : ℚ) : StreamSpan :=
  ⟨st.t0 + (st.nearestIdx a : ℚ) * st.delta, st.delta,
   (st.nearestIdx b - st.nearestIdx a + 1).toNat⟩

/-! ### Waveform and preview response decoding (lines 466-473, 539-545,
573-579) -/

/-- Body handling of `getWaveform`: empty body raises, a decoded stream
with zero traces raises, otherwise the stream is returned. -/
def getWaveformDecode (data : String) (loads : String → List α) : Except String (List α) :=
  if data = "" then Except.error "No waveform data available"
  else
    let stream := loads data
    if stream.length = 0 then Except.error "No waveform data available"
    else Except.ok stream

/-- Body handling of `getPreview`: only an empty body raises; the decoded
stream is returned without a zero-trace check. -/
def getPreviewDecode (data : String) (loads : String → List α) : Except String (List α) :=
  if data = "" then Except.error "No waveform data available"
  else Except.ok (loads data)

/-- Body handling of `getPreviewByIds`: identical to `getPreview`. -/
def getPreviewByIdsDecode (data : String) (loads : String → List α) : Except String (List α) :=
  if data = "" then Except.error "No waveform data available"
  else Except.ok (loads data)

/-! ### Poles-and-zeros extraction (`_StationMapperClient.getPAZ`,
lines 697-760) -/

/-- The component lists of one `response_poles_and_zeros` block, plus the
`A0_normalization_factor`. -/
structure PazData where
  polesRe : List ℚ
  polesIm : List ℚ
  zerosRe : List ℚ
  zerosIm : List ℚ
  a0 : ℚ
deriving DecidableEq

/-- A child node of `station_control_header`, in document order. -/
inductive RespNode where
  | chanId (channel location : String)
  | paz (d : PazData)
  | sens (stage : ℕ) (gain : ℚ)
deriving DecidableEq

/-- Does a node match the xpath filter
`channel_identifier[channel_identifier=c and location_identifier=l]`? -/
def matchesChan (c l : String) : RespNode → Bool
  | .chanId c' l' => c' == c && l' == l
  | _ => false

/-- The siblings following the first matching `channel_identifier` node;
`none` when no node matches (the xpath result is empty and `[0]` raises). -/
def afterFirstChan (c l : String) : List RespNode → Option (List RespNode)
  | [] => none
  | n :: rest => if matchesChan c l n then some rest else afterFirstChan c l rest

/-- First `response_poles_and_zeros` block of a sibling list. -/
def firstPaz : List RespNode → Option PazData
  | [] => none
  | .paz d :: _ => some d
  | _ :: rest => firstPaz rest

/-- First `channel_sensitivity_gain` block with the given
`stage_sequence_number`. -/
def firstSens (stage : ℕ) : List RespNode → Option ℚ
  | [] => none
  | .sens s g :: rest => if s = stage then some g else firstSens stage rest
  | _ :: rest => firstSens stage rest

/-- Gains of all `channel_sensitivity_gain` blocks, in document order. -/
def allSens : List RespNode → List ℚ
  | [] => []
  | .sens _ g :: rest => g :: allSens rest
  | _ :: rest => allSens rest

/-- The dictionary returned by `getPAZ`: poles and zeros as real/imaginary
pairs, gain, sensitivity, optional seismometer gain. -/
structure PAZ where
  poles : List (ℚ × ℚ)
  zeros : List (ℚ × ℚ)
  gain : ℚ
  sensitivity : ℚ
  seismometerGain : Option ℚ
deriving DecidableEq

/-- Wildcard reset of `getPAZ` (lines 703-707): a filter containing `*` or
`?` is replaced by the empty string. -/
def stripWildcards (s : String) : String :=
  if s.data.contains '*' || s.data.contains '?' then "" else s

/-- The filtered branch of `getPAZ` (lines 716-735): from the siblings
following the matched channel identifier, the next poles-and-zeros block,
the next stage-0 gain block and the next stage-1 gain block are taken
(`[0]` of an empty xpath result raises `IndexError`); real and imaginary
component lists are paired with `zip`. -/
def getPAZfilterBranch (rest : List RespNode) (seismometer_gain : Bool) :
    Except String PAZ :=
  match firstPaz rest, firstSens 0 rest, firstSens 1 rest with
  | some d, some sg, some gg =>
      Except.ok ⟨d.polesRe.zip d.polesIm, d.zerosRe.zip d.zerosIm, d.a0, sg,
                 if seismometer_gain then some gg else none⟩
  | _, _, _ => Except.error "IndexError: list index out of range"

/-- The unfiltered branch of `getPAZ` (lines 736-740): first
poles-and-zeros block, last gain block, first gain block. -/
def getPAZnofilterBranch (doc : List RespNode) (seismometer_gain : Bool) :
    Except String PAZ :=
  match firstPaz doc, (allSens doc).getLast?, (allSens doc).head? with
  | some d, some sg, some gg =>
      Except.ok ⟨d.polesRe.zip d.polesIm, d.zerosRe.zip d.zerosIm, d.a0, sg,
                 if seismometer_gain then some gg else none⟩
  | _, _, _ => Except.error "AttributeError: no such child"

/-- The node-selection and pairing logic of `getPAZ` (lines 702-760) on the
structured response document. With a channel/location filter (after
wildcard reset) the blocks following the first matching channel identifier
are used; without a filter, document-order selection. -/
def getPAZextract (doc : List RespNode) (channel0 location0 : String)
    (seismometer_gain : Bool) : Except String PAZ :=
  let channel := stripWildcards channel0
  let location := stripWildcards location0
  if channel ≠ "" ∨ location ≠ "" then
    match afterFirstChan channel location doc with
    | none => Except.error "IndexError: list index out of range"
    | some rest => getPAZfilterBranch rest seismometer_gain
  else getPAZnofilterBranch doc seismometer_gain

/-! ### KML placemark rendering (`_EventMapperClient.getKML`,
lines 866-899) -/

/-- Round half to even, as Python's float formatting does. -/
def roundHalfEven (q : ℚ) : ℤ :=
  if q - ⌊q⌋ < 1/2 then ⌊q⌋
  else if 1/2 < q - ⌊q⌋ then ⌊q⌋ + 1
  else if ⌊q⌋ % 2 = 0 then ⌊q⌋ else ⌊q⌋ + 1

/-- Pad a digit string with leading zeros to the given width. -/
def padLeftZeros (s : String) (n : ℕ) : String :=
  String.mk (List.replicate (n - s.length) '0') ++ s

/-- Python `"%.<prec>f" % q` on an exact rational value. -/
def formatFixed (prec : ℕ) (q : ℚ) : String :=
  let scaled := roundHalfEven (q * ((10 : ℚ) ^ prec))
  let sign := if q < 0 then "-" else ""
  let m := scaled.natAbs
  if prec = 0 then sign ++ toString (m / 10 ^ prec)
  else sign ++ toString (m / 10 ^ prec) ++ "." ++ padLeftZeros (toString (m % 10 ^ prec)) prec

/-- Python `s.split(" ")[0]`. -/
def pySplitFirst (s : String) : String :=
  String.mk (s.data.takeWhile (fun c => c != ' '))

/-- One decoded event record, with the fields `getKML` renders: `datetime`
(stringified), `magnitude` (a float, or absent when the field was empty),
`longitude` and `latitude`. -/
structure EventRecord where
  datetime : String
  magnitude : Option ℚ
  longitude : ℚ
  latitude : ℚ
deriving DecidableEq

/-- The placemark `name` text of `getKML` (lines 873-890): date plus the
magnitude to one decimal when a magnitude is present, the date alone
otherwise, and the empty string when `nolabels` is set. -/
def placemarkName (nolabels : Bool) (ev : EventRecord) : String :=
  let date := pySplitFirst ev.datetime
  let label :=
    match ev.magnitude with
    | some m => date ++ ": " ++ formatFixed 1 m
    | none => date
  if nolabels then "" else label

/-- The placemark `coordinates` text of `getKML` (lines 898-899):
`"%.10f,%.10f,0" % (longitude, latitude)`. -/
def placemarkCoordinates (ev : EventRecord) : String :=
  formatFixed 10 ev.longitude ++ "," ++ formatFixed 10 ev.latitude ++ ",0"

/-! ### `saveKML` (`_EventMapperClient.saveKML`, lines 912-935) -/

/-- Result of a `saveKML` call against a modelled file system: the raised
`OSError` message if any, the resulting file system, and whether the event
list was fetched and rendered. -/
structure SaveKMLResult where
  err : Option String
  fs : List (String × String)
  fetched : Bool
deriving DecidableEq

/-- `os.path.lexists` on the modelled file system. -/
def lexists (fs : List (String × String)) (filename : String) : Bool :=
  (dictGet fs filename).isSome

/-- `saveKML` (lines 931-935): with `overwrite=False` and an existing file
the `OSError` is raised before `getKML` is invoked; otherwise the rendered
KML string is written to the file. `render` stands for the
`getKML(**kwargs)` call. -/
def saveKML (fs : List (String × String)) (filename : String) (overwrite : Bool)
    (render : Unit → String) : SaveKMLResult :=
  if !overwrite && lexists fs filename then
    ⟨some ("File " ++ filename ++ " exists and overwrite=False."), fs, false⟩
  else
    ⟨none, dictSet fs filename (render ()), true⟩

/-! ### Dictionary lemmas -/

theorem dictGet_dictSet (d : List (String × α)) (k q : String) (v : α) :
    dictGet (dictSet d k v) q = if k = q then some v else dictGet d q := by
  induction d with
  | nil => simp [dictGet, dictSet]
  | cons e rest ih =>
    by_cases he : e.1 = k
    · simp only [dictSet, dictGet, he, if_pos rfl]
      by_cases hq : k = q
      · simp [dictGet, hq]
      · simp [dictGet, hq]
    · simp only [dictSet, dictGet, if_neg he]
      by_cases hq : e.1 = q
      · have : ¬ k = q := fun h => he (h ▸ hq)
        simp [dictGet, hq, this]
      · simp [dictGet, hq, ih]

theorem dictGet_dictDel (d : List (String × α)) (k q : String) :
    dictGet (dictDel d k) q = if k = q then none else dictGet d q := by
  induction d with
  | nil => simp [dictGet, dictDel]
  | cons e rest ih =>
    rw [dictDel]
    by_cases he : e.1 = k
    · rw [if_pos he, ih]
      by_cases hq : k = q
      · rw [if_pos hq, if_pos hq]
      · rw [if_neg hq, if_neg hq, dictGet, if_neg (fun h => hq (he.symm.trans h))]
    · rw [if_neg he, dictGet]
      by_cases hq : e.1 = q
      · rw [if_pos hq, if_neg (fun h => he (hq.trans h.symm)), dictGet, if_pos hq]
      · rw [if_neg hq, ih, dictGet, if_neg hq]

theorem mem_dictSet {d : List (String × α)} {k : String} {v : α} {p : String × α}
    (h : p ∈ dictSet d k v) : p ∈ d ∨ p = (k, v) := by
  induction d with
  | nil => simp [dictSet] at h; simp [h]
  | cons e rest ih =>
    by_cases he : e.1 = k
    · rw [dictSet, if_pos he] at h
      rcases List.mem_cons.mp h with h | h
      · exact Or.inr h
      · exact Or.inl (List.mem_cons_of_mem _ h)
    · rw [dictSet, if_neg he] at h
      rcases List.mem_cons.mp h with h | h
      · exact Or.inl (h ▸ List.mem_cons_self _ _)
      · rcases ih h with h | h
        · exact Or.inl (List.mem_cons_of_mem _ h)
        · exact Or.inr h

theorem mem_dictDel {d : List (String × α)} {k : String} {p : String × α}
    (h : p ∈ dictDel d k) : p ∈ d := by
  induction d with
  | nil => simp [dictDel] at h
  | cons e rest ih =>
    by_cases he : e.1 = k
    · rw [dictDel, if_pos he] at h
      exact List.mem_cons_of_mem _ (ih h)
    · rw [dictDel, if_neg he] at h
      rcases List.mem_cons.mp h with h | h
      · exact h ▸ List.mem_cons_self _ _
      · exact List.mem_cons_of_mem _ (ih h)

theorem dictSet_of_get_none {d : List (String × α)} {k : String} (v : α)
    (h : dictGet d k = none) : dictSet d k v = d ++ [(k, v)] := by
  induction d with
  | nil => simp [dictSet]
  | cons e rest ih =>
    rw [dictGet] at h
    by_cases he : e.1 = k
    · simp [he] at h
    · rw [if_neg he] at h
      simp [dictSet, he, ih h]

theorem dictGet_append_none {d d' : List (String × α)} {q : String}
    (h : dictGet d q = none) : dictGet (d ++ d') q = dictGet d' q := by
  induction d with
  | nil => simp
  | cons e rest ih =>
    rw [dictGet] at h
    by_cases he : e.1 = q
    · simp [he] at h
    · rw [if_neg he] at h
      rw [List.cons_append, dictGet, if_neg he]
      exact ih h

theorem dictGet_eq_none_of_not_mem {d : List (String × α)} {q : String}
    (h : q ∉ keysOf d) : dictGet d q = none := by
  induction d with
  | nil => rfl
  | cons e rest ih =>
    simp only [keysOf, List.map_cons, List.mem_cons, not_or] at h
    rw [dictGet, if_neg (fun he => h.1 he.symm)]
    exact ih (by simpa [keysOf] using h.2)

theorem dictGet_some_mem {d : List (String × α)} {q : String} {v : α}
    (h : dictGet d q = some v) : (q, v) ∈ d := by
  induction d with
  | nil => simp [dictGet] at h
  | cons e rest ih =>
    rw [dictGet] at h
    by_cases he : e.1 = q
    · rw [if_pos he] at h
      obtain ⟨a, b⟩ := e
      obtain rfl : a = q := he
      obtain rfl : b = v := by simpa using h
      exact List.mem_cons_self _ _
    · rw [if_neg he] at h
      exact List.mem_cons_of_mem _ (ih h)

theorem get_ne_none_of_mem {d : List (String × α)} {e : String × α}
    (h : e ∈ d) : dictGet d e.1 ≠ none := by
  induction d with
  | nil => simp at h
  | cons f rest ih =>
    rcases List.mem_cons.mp h with h | h
    · subst h
      simp [dictGet]
    · rw [dictGet]
      by_cases hf : f.1 = e.1
      · simp [hf]
      · rw [if_neg hf]
        exact ih h

theorem nodup_keys_dictSet {d : List (String × α)} {k : String} {v : α}
    (h : (keysOf d).Nodup) : (keysOf (dictSet d k v)).Nodup := by
  induction d with
  | nil => simp [dictSet, keysOf]
  | cons e rest ih =>
    simp only [keysOf, List.map_cons, List.nodup_cons] at h
    by_cases he : e.1 = k
    · rw [dictSet, if_pos he]
      simp only [keysOf, List.map_cons, List.nodup_cons]
      exact ⟨he ▸ h.1, h.2⟩
    · rw [dictSet, if_neg he]
      simp only [keysOf, List.map_cons, List.nodup_cons]
      refine ⟨fun hmem => ?_, ih h.2⟩
      rcases List.mem_map.mp hmem with ⟨p, hp, hp1⟩
      rcases mem_dictSet hp with hp' | hp'
      · exact h.1 (hp1 ▸ List.mem_map_of_mem _ hp')
      · have hpk : p.1 = k := by rw [hp']
        exact he (hp1 ▸ hpk)

/-! ### String key lemmas -/

theorem data_append (s t : String) : (s ++ t).data = s.data ++ t.data := rfl

theorem min_head (k : String) : ("min_" ++ k).data.head? = some 'm' := rfl

theorem max_head (k : String) : ("max_" ++ k).data.head? = some 'm' := rfl

theorem min_ne_max (k : String) : ("min_" ++ k : String) ≠ "max_" ++ k := by
  intro h
  have hd := congrArg String.data h
  rw [show ("min_" ++ k).data = 'm' :: 'i' :: 'n' :: '_' :: k.data from rfl,
      show ("max_" ++ k).data = 'm' :: 'a' :: 'x' :: '_' :: k.data from rfl] at hd
  injection hd with h1 h2
  injection h2 with h3 _
  exact absurd h3 (by decide)

theorem min_append_ne_self (k : String) : ("min_" ++ k : String) ≠ k := by
  intro h
  have hd := congrArg (fun s : String => s.data.length) h
  simp only [show ("min_" ++ k).data = 'm' :: 'i' :: 'n' :: '_' :: k.data from rfl,
    List.length_cons] at hd
  omega

theorem max_append_ne_self (k : String) : ("max_" ++ k : String) ≠ k := by
  intro h
  have hd := congrArg (fun s : String => s.data.length) h
  simp only [show ("max_" ++ k).data = 'm' :: 'a' :: 'x' :: '_' :: k.data from rfl,
    List.length_cons] at hd
  omega

theorem min_not_kwkey (k : String) : ("min_" ++ k) ∉ keysOf KEYWORDS := by
  intro h
  simp only [keysOf, KEYWORDS, List.map_cons, List.map_nil, List.mem_cons,
    List.not_mem_nil, or_false] at h
  rcases h with h | h | h | h | h | h <;>
  · have hd := min_head k
    rw [h] at hd
    exact absurd hd (by decide)

theorem max_not_kwkey (k : String) : ("max_" ++ k) ∉ keysOf KEYWORDS := by
  intro h
  simp only [keysOf, KEYWORDS, List.map_cons, List.map_nil, List.mem_cons,
    List.not_mem_nil, or_false] at h
  rcases h with h | h | h | h | h | h <;>
  · have hd := max_head k
    rw [h] at hd
    exact absurd hd (by decide)

/-! ### Keyword-mapping lemmas -/

theorem mapStep_get_none {kw : Kwargs} {p : String × String} {q : String}
    (hq : q ≠ p.2) (h : dictGet kw q = none) : dictGet (mapStep kw p) q = none := by
  rw [mapStep]
  cases hg : dictGet kw p.1 with
  | none => exact h
  | some v =>
    rw [dictGet_dictDel]
    by_cases h1 : p.1 = q
    · rw [if_pos h1]
    · rw [if_neg h1, dictGet_dictSet, if_neg (fun hh => hq hh.symm)]
      exact h

theorem mapKeywords_get_none (table : List (String × String)) :
    ∀ (kw : Kwargs) (q : String), q ∉ table.map Prod.snd → dictGet kw q = none →
      dictGet (mapKeywords table kw) q = none := by
  induction table with
  | nil => intro kw q _ h; exact h
  | cons p rest ih =>
    intro kw q hq h
    simp only [List.map_cons, List.mem_cons, not_or] at hq
    exact ih _ q (by simpa using hq.2) (mapStep_get_none hq.1 h)

theorem mapKeywords_key_none (table : List (String × String)) :
    ∀ (kw : Kwargs) (q : String), q ∈ table.map Prod.fst →
      (∀ p ∈ table, p.2 ∉ table.map Prod.fst) →
      dictGet (mapKeywords table kw) q = none := by
  induction table with
  | nil => intro kw q hq _; simp at hq
  | cons p rest ih =>
    intro kw q hq hvk
    by_cases hr : q ∈ rest.map Prod.fst
    · refine ih _ q hr ?_
      intro p' hp' hmem
      exact hvk p' (List.mem_cons_of_mem _ hp') (List.mem_cons_of_mem _ hmem)
    · have hq1 : q = p.1 := by
        simp only [List.map_cons, List.mem_cons] at hq
        tauto
      rw [mapKeywords]
      have h0 : dictGet (mapStep kw p) q = none := by
        rw [mapStep]
        cases hg : dictGet kw p.1 with
        | none => rw [hq1]; exact hg
        | some v => rw [dictGet_dictDel, if_pos hq1.symm]
      refine mapKeywords_get_none rest _ q ?_ h0
      intro hmem
      rcases List.mem_map.mp hmem with ⟨p', hp', hp2⟩
      exact hvk p' (List.mem_cons_of_mem _ hp') (hp2 ▸ hq1 ▸ (hq1 ▸ hq))

theorem mapKeywords_id (table : List (String × String)) :
    ∀ kw : Kwargs, (∀ p ∈ table, dictGet kw p.1 = none) → mapKeywords table kw = kw := by
  induction table with
  | nil => intro kw _; rfl
  | cons p rest ih =>
    intro kw h
    rw [mapKeywords, mapStep, h p (List.mem_cons_self _ _)]
    exact ih kw (fun p' hp' => h p' (List.mem_cons_of_mem _ hp'))

theorem mapStep_values {kw : Kwargs} {p : String × String} {q : String × Value}
    (h : q ∈ mapStep kw p) : q.2 ∈ kw.map Prod.snd := by
  rw [mapStep] at h
  cases hg : dictGet kw p.1 with
  | none => rw [hg] at h; exact List.mem_map_of_mem _ h
  | some v =>
    rw [hg] at h
    rcases mem_dictSet (mem_dictDel h) with h' | h'
    · exact List.mem_map_of_mem _ h'
    · have : q.2 = v := by rw [h']
      rw [this]
      exact List.mem_map_of_mem _ (dictGet_some_mem hg)

theorem mapKeywords_values (table : List (String × String)) :
    ∀ (kw : Kwargs) (q : String × Value), q ∈ mapKeywords table kw →
      q.2 ∈ kw.map Prod.snd := by
  induction table with
  | nil => intro kw q h; exact List.mem_map_of_mem _ h
  | cons p rest ih =>
    intro kw q h
    have h1 := ih (mapStep kw p) q h
    rcases List.mem_map.mp h1 with ⟨e, he, he2⟩
    exact he2 ▸ mapStep_values he

/-! ### Range-folding lemmas -/

theorem foldStep_vNone (acc : Params) (k : String) :
    foldStep acc k Value.vNone = acc := rfl

theorem foldStep_vStr (acc : Params) (k s : String) :
    foldStep acc k (Value.vStr s) = if s != "" then dictSet acc k s else acc := rfl

theorem foldStep_vTup2 (acc : Params) (k a b : String) :
    foldStep acc k (Value.vTup2 a b)
      = dictSet (dictSet acc ("min_" ++ k) a) ("max_" ++ k) b := rfl

theorem foldStep_vList2 (acc : Params) (k a b : String) :
    foldStep acc k (Value.vList2 a b)
      = dictSet (dictSet acc ("min_" ++ k) a) ("max_" ++ k) b := rfl

theorem foldStep_mem {acc : Params} {k : String} {v : Value} {q : String × String}
    (h : q ∈ foldStep acc k v) :
    q ∈ acc ∨ q.1 = k ∨ q.1 = "min_" ++ k ∨ q.1 = "max_" ++ k := by
  cases v with
  | vNone => rw [foldStep_vNone] at h; exact Or.inl h
  | vStr s =>
    rw [foldStep_vStr] at h
    by_cases hs : (s != "") = true
    · rw [if_pos hs] at h
      rcases mem_dictSet h with h' | h'
      · exact Or.inl h'
      · exact Or.inr (Or.inl (congrArg Prod.fst h'))
    · rw [if_neg hs] at h; exact Or.inl h
  | vTup2 a b =>
    rw [foldStep_vTup2] at h
    rcases mem_dictSet h with h' | h'
    · rcases mem_dictSet h' with h'' | h''
      · exact Or.inl h''
      · exact Or.inr (Or.inr (Or.inl (congrArg Prod.fst h'')))
    · exact Or.inr (Or.inr (Or.inr (congrArg Prod.fst h')))
  | vList2 a b =>
    rw [foldStep_vList2] at h
    rcases mem_dictSet h with h' | h'
    · rcases mem_dictSet h' with h'' | h''
      · exact Or.inl h''
      · exact Or.inr (Or.inr (Or.inl (congrArg Prod.fst h'')))
    · exact Or.inr (Or.inr (Or.inr (congrArg Prod.fst h')))

theorem foldParams_mem (kw : Kwargs) :
    ∀ (acc : Params) (q : String × String), q ∈ foldParams kw acc →
      q ∈ acc ∨ ∃ e ∈ kw, q.1 = e.1 ∨ q.1 = "min_" ++ e.1 ∨ q.1 = "max_" ++ e.1 := by
  induction kw with
  | nil => intro acc q h; exact Or.inl h
  | cons e rest ih =>
    intro acc q h
    rcases ih _ q h with h' | ⟨e', he', hq⟩
    · rcases foldStep_mem h' with h'' | h''
      · exact Or.inl h''
      · exact Or.inr ⟨e, List.mem_cons_self _ _, h''⟩
    · exact Or.inr ⟨e', List.mem_cons_of_mem _ he', hq⟩

theorem foldStep_values {acc : Params} {k : String} {v : Value} {q : String × String}
    (hv : v.rangeNonempty) (hacc : ∀ r ∈ acc, r.2 ≠ "") (h : q ∈ foldStep acc k v) :
    q.2 ≠ "" := by
  cases v with
  | vNone => rw [foldStep_vNone] at h; exact hacc q h
  | vStr s =>
    rw [foldStep_vStr] at h
    by_cases hs : (s != "") = true
    · rw [if_pos hs] at h
      rcases mem_dictSet h with h' | h'
      · exact hacc q h'
      · have hq2 : q.2 = s := congrArg Prod.snd h'
        rw [hq2]
        simpa using hs
    · rw [if_neg hs] at h; exact hacc q h
  | vTup2 a b =>
    rw [foldStep_vTup2] at h
    rcases mem_dictSet h with h' | h'
    · rcases mem_dictSet h' with h'' | h''
      · exact hacc q h''
      · have hq2 : q.2 = a := congrArg Prod.snd h''
        rw [hq2]; exact hv.1
    · have hq2 : q.2 = b := congrArg Prod.snd h'
      rw [hq2]; exact hv.2
  | vList2 a b =>
    rw [foldStep_vList2] at h
    rcases mem_dictSet h with h' | h'
    · rcases mem_dictSet h' with h'' | h''
      · exact hacc q h''
      · have hq2 : q.2 = a := congrArg Prod.snd h''
        rw [hq2]; exact hv.1
    · have hq2 : q.2 = b := congrArg Prod.snd h'
      rw [hq2]; exact hv.2

theorem foldParams_values (kw : Kwargs) :
    ∀ acc : Params, (∀ e ∈ kw, Value.rangeNonempty e.2) → (∀ r ∈ acc, r.2 ≠ "") →
      ∀ q ∈ foldParams kw acc, q.2 ≠ "" := by
  induction kw with
  | nil => intro acc _ hacc q h; exact hacc q h
  | cons e rest ih =>
    intro acc hkw hacc q h
    refine ih _ (fun e' he' => hkw e' (List.mem_cons_of_mem _ he')) ?_ q h
    intro r hr
    exact foldStep_values (hkw e (List.mem_cons_self _ _)) hacc hr

theorem nodup_keys_foldParams (kw : Kwargs) :
    ∀ acc : Params, (keysOf acc).Nodup → (keysOf (foldParams kw acc)).Nodup := by
  induction kw with
  | nil => intro acc h; exact h
  | cons e rest ih =>
    intro acc h
    obtain ⟨k, v⟩ := e
    rw [foldParams]
    refine ih _ ?_
    cases v with
    | vNone => rw [foldStep_vNone]; exact h
    | vStr s =>
      rw [foldStep_vStr]
      by_cases hs : (s != "") = true
      · rw [if_pos hs]; exact nodup_keys_dictSet h
      · rw [if_neg hs]; exact h
    | vTup2 a b =>
      rw [foldStep_vTup2]; exact nodup_keys_dictSet (nodup_keys_dictSet h)
    | vList2 a b =>
      rw [foldStep_vList2]; exact nodup_keys_dictSet (nodup_keys_dictSet h)

theorem foldParams_wrap (P : Params) :
    ∀ acc : Params, (∀ q ∈ P, q.2 ≠ "") → (keysOf P).Nodup →
      (∀ q ∈ P, dictGet acc q.1 = none) →
      foldParams (wrapParams P) acc = acc ++ P := by
  induction P with
  | nil => intro acc _ _ _; simp [wrapParams, foldParams]
  | cons q rest ih =>
    intro acc hv hn hd
    obtain ⟨k, s⟩ := q
    have hq2 : s ≠ "" := hv (k, s) (List.mem_cons_self _ _)
    have hstep : foldStep acc k (Value.vStr s) = acc ++ [(k, s)] := by
      rw [foldStep_vStr, if_pos (by simpa using hq2)]
      exact dictSet_of_get_none _ (hd (k, s) (List.mem_cons_self _ _))
    have hw : wrapParams ((k, s) :: rest) = (k, Value.vStr s) :: wrapParams rest := rfl
    rw [hw, foldParams, hstep]
    have hrest : foldParams (wrapParams rest) (acc ++ [(k, s)]) = (acc ++ [(k, s)]) ++ rest := by
      refine ih _ (fun r hr => hv r (List.mem_cons_of_mem _ hr)) ?_ ?_
      · simp only [keysOf, List.map_cons, List.nodup_cons] at hn
        exact hn.2
      · intro r hr
        have h1 : dictGet acc r.1 = none := hd r (List.mem_cons_of_mem _ hr)
        have h2 : r.1 ≠ k := by
          simp only [keysOf, List.map_cons, List.nodup_cons] at hn
          intro he
          exact hn.1 (he ▸ List.mem_map_of_mem _ hr)
        rw [dictGet_append_none h1, dictGet, if_neg (fun he => h2 he.symm)]
        rfl
    rw [hrest, List.append_assoc]
    rfl

theorem dictSet_cons_ne {k' k : String} {v' : α} {rest : List (String × α)}
    (h : k' ≠ k) (v : α) :
    dictSet ((k', v') :: rest) k v = (k', v') :: dictSet rest k v := by
  rw [dictSet, if_neg h]

/-! ### Claim theorems -/

/-- C5: for every parameter key `k` whose value is a 2-element tuple or
list `(a, b)`, the range-folding loop of `_fetch` produces exactly the two
entries `min_k ↦ str(a)` and `max_k ↦ str(b)`, and no entry named `k`. -/
theorem C5_range_folding (k a b : String) :
    (foldParams [(k, Value.vTup2 a b)] [] = [("min_" ++ k, a), ("max_" ++ k, b)]
      ∧ dictGet (foldParams [(k, Value.vTup2 a b)] []) k = none)
  ∧ (foldParams [(k, Value.vList2 a b)] [] = [("min_" ++ k, a), ("max_" ++ k, b)]
      ∧ dictGet (foldParams [(k, Value.vList2 a b)] []) k = none) := by
  have hfoldT : foldParams [(k, Value.vTup2 a b)] [] = [("min_" ++ k, a), ("max_" ++ k, b)] := by
    rw [show foldParams [(k, Value.vTup2 a b)] [] = foldStep [] k (Value.vTup2 a b) from rfl,
      foldStep_vTup2,
      show dictSet ([] : Params) ("min_" ++ k) a = [("min_" ++ k, a)] from rfl,
      dictSet_cons_ne (min_ne_max k)]
    rfl
  have hfoldL : foldParams [(k, Value.vList2 a b)] [] = [("min_" ++ k, a), ("max_" ++ k, b)] := by
    rw [show foldParams [(k, Value.vList2 a b)] [] = foldStep [] k (Value.vList2 a b) from rfl,
      foldStep_vList2,
      show dictSet ([] : Params) ("min_" ++ k) a = [("min_" ++ k, a)] from rfl,
      dictSet_cons_ne (min_ne_max k)]
    rfl
  have hget : dictGet [("min_" ++ k, a), ("max_" ++ k, b)] k = none := by
    rw [dictGet, if_neg (min_append_ne_self k), dictGet, if_neg (max_append_ne_self k)]
    rfl
  exact ⟨⟨hfoldT, hfoldT ▸ hget⟩, ⟨hfoldL, hfoldL ▸ hget⟩⟩

/-- C6 (amended): normalization by `_fetch` is idempotent on keyword
mappings whose 2-element range values have non-empty components;
re-normalizing the produced parameter mapping yields it unchanged. (The
unamended claim fails when a range component stringifies to the empty
string, because the re-run skips the then-falsy `min_`/`max_` entry.) -/
theorem C6_norm_idempotent (m : Kwargs)
    (h : ∀ p ∈ m, Value.rangeNonempty p.2) :
    fetchParams (wrapParams (fetchParams m)) = fetchParams m := by
  have hvals : ∀ q ∈ fetchParams m, q.2 ≠ "" := by
    refine foldParams_values _ _ ?_ ?_
    · intro e he
      rcases List.mem_map.mp (mapKeywords_values KEYWORDS m e he) with ⟨p, hp, hp2⟩
      exact hp2 ▸ h p hp
    · intro r hr
      simp at hr
  have hnodup : (keysOf (fetchParams m)).Nodup := by
    refine nodup_keys_foldParams _ _ ?_
    simp [keysOf]
  have hkeys : ∀ q ∈ fetchParams m, q.1 ∉ keysOf KEYWORDS := by
    intro q hq hmem
    rcases foldParams_mem _ _ _ hq with h' | ⟨e, he, hq1⟩
    · simp at h'
    · rcases hq1 with h1 | h1 | h1
      · have hnone : dictGet (mapKeywords KEYWORDS m) e.1 = none :=
          mapKeywords_key_none KEYWORDS m e.1 (h1 ▸ hmem) (by decide)
        exact get_ne_none_of_mem he hnone
      · exact min_not_kwkey e.1 (h1 ▸ hmem)
      · exact max_not_kwkey e.1 (h1 ▸ hmem)
  have hnone2 : ∀ p ∈ KEYWORDS, dictGet (wrapParams (fetchParams m)) p.1 = none := by
    intro p hp
    refine dictGet_eq_none_of_not_mem ?_
    intro hmem
    have hkw : keysOf (wrapParams (fetchParams m)) = keysOf (fetchParams m) := by
      simp [keysOf, wrapParams, List.map_map]
    rw [hkw] at hmem
    rcases List.mem_map.mp hmem with ⟨q, hq, hq1⟩
    exact hkeys q hq (hq1 ▸ List.mem_map_of_mem _ hp)
  conv_lhs => rw [fetchParams]
  rw [mapKeywords_id KEYWORDS _ hnone2,
    foldParams_wrap (fetchParams m) [] hvals hnodup (fun q _ => rfl)]
  simp

/-- C6 counterexample: normalizing the already-normalized output of
`{k ↦ ("", "b")}` drops the `min_k` entry whose value is the empty string,
so normalization is not idempotent as claimed. -/
theorem C6_counterexample :
    fetchParams (wrapParams (fetchParams [("k", Value.vTup2 "" "b")]))
      ≠ fetchParams [("k", Value.vTup2 "" "b")] := by decide

/-- C6 witness: a concrete instance of the amended idempotence theorem. -/
theorem C6_witness :
    fetchParams (wrapParams (fetchParams [("depth", Value.vTup2 "1" "10")]))
      = fetchParams [("depth", Value.vTup2 "1" "10")] :=
  C6_norm_idempotent _ (by
    intro p hp
    simp only [List.mem_singleton] at hp
    subst hp
    exact ⟨by decide, by decide⟩)

/-- C1 (amended): for every key `k` in the deprecated-keyword table,
supplying `k` with a non-empty string value results in the final outgoing
query-parameter mapping containing `k` itself and not the canonical key:
the decorator renames `k` to its canonical name, but `_fetch`'s `KEYWORDS`
table maps the canonical name back to the wire name, which coincides with
the deprecated key. -/
theorem C1_deprecated_key_roundtrip (k c s : String)
    (hk : (k, c) ∈ DEPRECATED_KEYWORDS) (hs : s ≠ "") :
    dictGet (operationParams DEPRECATED_KEYWORDS [(k, Value.vStr s)]) k = some s
  ∧ dictGet (operationParams DEPRECATED_KEYWORDS [(k, Value.vStr s)]) c = none := by
  have hs' : (s != "") = true := by simpa using hs
  have hsingle : ∀ k' : String, foldParams [(k', Value.vStr s)] [] = [(k', s)] := by
    intro k'
    rw [show foldParams [(k', Value.vStr s)] [] = foldStep [] k' (Value.vStr s) from rfl,
      foldStep_vStr, if_pos hs']
    rfl
  fin_cases hk
  · rw [operationParams,
        show applyDeprecatedKeywords DEPRECATED_KEYWORDS [("network_id", Value.vStr s)]
          = [("network", Value.vStr s)] from rfl,
        fetchParams,
        show mapKeywords KEYWORDS [("network", Value.vStr s)] = [("network_id", Value.vStr s)] from rfl,
        hsingle]
    exact ⟨rfl, rfl⟩
  · rw [operationParams,
        show applyDeprecatedKeywords DEPRECATED_KEYWORDS [("station_id", Value.vStr s)]
          = [("station", Value.vStr s)] from rfl,
        fetchParams,
        show mapKeywords KEYWORDS [("station", Value.vStr s)] = [("station_id", Value.vStr s)] from rfl,
        hsingle]
    exact ⟨rfl, rfl⟩
  · rw [operationParams,
        show applyDeprecatedKeywords DEPRECATED_KEYWORDS [("location_id", Value.vStr s)]
          = [("location", Value.vStr s)] from rfl,
        fetchParams,
        show mapKeywords KEYWORDS [("location", Value.vStr s)] = [("location_id", Value.vStr s)] from rfl,
        hsingle]
    exact ⟨rfl, rfl⟩
  · rw [operationParams,
        show applyDeprecatedKeywords DEPRECATED_KEYWORDS [("channel_id", Value.vStr s)]
          = [("channel", Value.vStr s)] from rfl,
        fetchParams,
        show mapKeywords KEYWORDS [("channel", Value.vStr s)] = [("channel_id", Value.vStr s)] from rfl,
        hsingle]
    exact ⟨rfl, rfl⟩
  · rw [operationParams,
        show applyDeprecatedKeywords DEPRECATED_KEYWORDS [("start_datetime", Value.vStr s)]
          = [("starttime", Value.vStr s)] from rfl,
        fetchParams,
        show mapKeywords KEYWORDS [("starttime", Value.vStr s)] = [("start_datetime", Value.vStr s)] from rfl,
        hsingle]
    exact ⟨rfl, rfl⟩
  · rw [operationParams,
        show applyDeprecatedKeywords DEPRECATED_KEYWORDS [("end_datetime", Value.vStr s)]
          = [("endtime", Value.vStr s)] from rfl,
        fetchParams,
        show mapKeywords KEYWORDS [("endtime", Value.vStr s)] = [("end_datetime", Value.vStr s)] from rfl,
        hsingle]
    exact ⟨rfl, rfl⟩

/-- C1 counterexample: supplying the deprecated key `network_id` yields a
final parameter mapping in which the canonical key `network` is absent and
the deprecated key `network_id` is present, contradicting the claim. -/
theorem C1_counterexample :
    dictGet (operationParams DEPRECATED_KEYWORDS [("network_id", Value.vStr "BW")]) "network"
        = none
  ∧ dictGet (operationParams DEPRECATED_KEYWORDS [("network_id", Value.vStr "BW")]) "network_id"
        = some "BW" := by decide

/-- C1 witness: a concrete instance of the amended theorem at the
deprecated key `start_datetime`. -/
theorem C1_witness :
    dictGet (operationParams DEPRECATED_KEYWORDS
        [("start_datetime", Value.vStr "2009-09-03")]) "start_datetime" = some "2009-09-03"
  ∧ dictGet (operationParams DEPRECATED_KEYWORDS
        [("start_datetime", Value.vStr "2009-09-03")]) "starttime" = none :=
  C1_deprecated_key_roundtrip "start_datetime" "starttime" "2009-09-03" (by decide) (by decide)

/-- C3 (amended): an empty response body raises the empty-result error in
all three of `getWaveform`, `getPreview` and `getPreviewByIds`; a decoded
stream with zero traces raises it only in `getWaveform`, while `getPreview`
and `getPreviewByIds` return the decoded stream unconditionally, including
a zero-trace stream. -/
theorem C3_empty_result {α : Type} (data : String) (loads : String → List α) :
    (data = "" → getWaveformDecode data loads = Except.error "No waveform data available")
  ∧ (data ≠ "" → loads data = [] →
       getWaveformDecode data loads = Except.error "No waveform data available")
  ∧ (data ≠ "" → loads data ≠ [] → getWaveformDecode data loads = Except.ok (loads data))
  ∧ (data = "" → getPreviewDecode data loads = Except.error "No waveform data available")
  ∧ (data ≠ "" → getPreviewDecode data loads = Except.ok (loads data))
  ∧ (data = "" → getPreviewByIdsDecode data loads = Except.error "No waveform data available")
  ∧ (data ≠ "" → getPreviewByIdsDecode data loads = Except.ok (loads data)) := by
  refine ⟨?_, ?_, ?_, ?_, ?_, ?_, ?_⟩
  · intro h
    rw [getWaveformDecode, if_pos h]
  · intro h hl
    rw [getWaveformDecode, if_neg h]
    simp [hl]
  · intro h hl
    rw [getWaveformDecode, if_neg h]
    simp [List.length_eq_zero, hl]
  · intro h
    rw [getPreviewDecode, if_pos h]
  · intro h
    rw [getPreviewDecode, if_neg h]
  · intro h
    rw [getPreviewByIdsDecode, if_pos h]
  · intro h
    rw [getPreviewByIdsDecode, if_neg h]

/-- C3 counterexample: `getPreview` on a non-empty body that decodes to a
zero-trace stream returns the empty stream as a success instead of raising
the empty-result error the claim requires. -/
theorem C3_counterexample :
    getPreviewDecode "x" (fun _ => ([] : List Unit)) = Except.ok [] := rfl

/-- C3 witness: concrete instances of the amended theorem. -/
theorem C3_witness :
    getWaveformDecode "" (fun _ => ([] : List Unit))
        = Except.error "No waveform data available"
  ∧ getWaveformDecode "x" (fun _ => ([] : List Unit))
        = Except.error "No waveform data available"
  ∧ getPreviewByIdsDecode "x" (fun _ => ([] : List Unit)) = Except.ok [] :=
  ⟨(C3_empty_result "" (fun _ => ([] : List Unit))).1 rfl,
   (C3_empty_result "x" (fun _ => ([] : List Unit))).2.1 (by decide) rfl,
   (C3_empty_result "x" (fun _ => ([] : List Unit))).2.2.2.2.2.2 (by decide)⟩

/-- C8: the low-level request validation fails fast (before any request
object is constructed or network call made) with a `ValueError` for a
method outside PUT/POST/HEAD/GET/DELETE, and with a `TypeError` for
PUT/POST with an empty body or HEAD/GET/DELETE with a non-empty body; only
otherwise is the request constructed, and then `RequestWithMethod.__init__`
accepts the method as well. -/
theorem C8_http_request_validation (url method xml_string : String) :
    (method ∉ HTTP_ACCEPTED_METHODS →
       HTTP_request url method xml_string
         = HTTPOutcome.valueError "Method must be one of ['PUT', 'POST', 'HEAD', 'GET', 'DELETE']")
  ∧ (method ∈ HTTP_ACCEPTED_DATA_METHODS → xml_string = "" →
       HTTP_request url method xml_string
         = HTTPOutcome.typeError ("Missing data for " ++ method ++ " request."))
  ∧ (method ∈ HTTP_ACCEPTED_NODATA_METHODS → xml_string ≠ "" →
       HTTP_request url method xml_string
         = HTTPOutcome.typeError ("Unexpected data for " ++ method ++ " request."))
  ∧ (∀ m u d, HTTP_request url method xml_string = HTTPOutcome.request m u d →
       m = method ∧ u = url ∧ d = xml_string ∧ method ∈ HTTP_ACCEPTED_METHODS
       ∧ RequestWithMethod_init method = Except.ok method) := by
  refine ⟨?_, ?_, ?_, ?_⟩
  · intro h
    rw [HTTP_request, if_pos h]
  · intro hm hx
    have hmem : method ∈ HTTP_ACCEPTED_METHODS := by
      rw [HTTP_ACCEPTED_METHODS]
      exact List.mem_append_left _ hm
    rw [HTTP_request, if_neg (not_not_intro hmem), if_pos ⟨hm, hx⟩]
  · intro hm hx
    have hmem : method ∈ HTTP_ACCEPTED_METHODS := by
      rw [HTTP_ACCEPTED_METHODS]
      exact List.mem_append_right _ hm
    have hnd : ¬ (method ∈ HTTP_ACCEPTED_DATA_METHODS ∧ xml_string = "") := by
      rintro ⟨hd, _⟩
      rcases (by simpa [HTTP_ACCEPTED_NODATA_METHODS] using hm : method = "HEAD" ∨ method = "GET" ∨ method = "DELETE") with rfl | rfl | rfl <;>
        simp [HTTP_ACCEPTED_DATA_METHODS] at hd
    rw [HTTP_request, if_neg (not_not_intro hmem), if_neg hnd, if_pos ⟨hm, hx⟩]
  · intro m u d h
    rw [HTTP_request] at h
    split_ifs at h with h1 h2 h3
    simp at h
    obtain ⟨e1, e2, e3⟩ := h
    exact ⟨e1.symm, e2.symm, e3.symm, h1,
      by rw [RequestWithMethod_init, if_neg (not_not_intro h1)]⟩

/-- C8 witness: concrete instances of the validation theorem. -/
theorem C8_witness :
    HTTP_request "u" "PATCH" ""
        = HTTPOutcome.valueError "Method must be one of ['PUT', 'POST', 'HEAD', 'GET', 'DELETE']"
  ∧ HTTP_request "u" "PUT" "" = HTTPOutcome.typeError "Missing data for PUT request."
  ∧ HTTP_request "u" "GET" "x" = HTTPOutcome.typeError "Unexpected data for GET request." :=
  ⟨(C8_http_request_validation "u" "PATCH" "").1 (by decide),
   (C8_http_request_validation "u" "PUT" "").2.1 (by decide) rfl,
   (C8_http_request_validation "u" "GET" "x").2.2.1 (by decide) (by decide)⟩

/-- C10: `saveKML` with `overwrite=False` and an existing file raises the
`OSError` before fetching or rendering anything and leaves the file system
unchanged; when the file does not exist or `overwrite=True`, the rendered
KML string is written to the file. -/
theorem C10_saveKML (fs : List (String × String)) (filename : String)
    (render : Unit → String) :
    (lexists fs filename = true →
       saveKML fs filename false render
         = ⟨some ("File " ++ filename ++ " exists and overwrite=False."), fs, false⟩)
  ∧ (lexists fs filename = false →
       saveKML fs filename false render = ⟨none, dictSet fs filename (render ()), true⟩
       ∧ dictGet (saveKML fs filename false render).fs filename = some (render ()))
  ∧ (saveKML fs filename true render = ⟨none, dictSet fs filename (render ()), true⟩
     ∧ dictGet (saveKML fs filename true render).fs filename = some (render ())) := by
  refine ⟨?_, ?_, ?_⟩
  · intro h
    rw [saveKML, if_pos (by simp [h])]
  · intro h
    have he : saveKML fs filename false render
        = ⟨none, dictSet fs filename (render ()), true⟩ := by
      rw [saveKML, if_neg (by simp [h])]
    refine ⟨he, ?_⟩
    rw [he]
    simp [dictGet_dictSet]
  · have he : saveKML fs filename true render
        = ⟨none, dictSet fs filename (render ()), true⟩ := by
      rw [saveKML, if_neg (by simp)]
    refine ⟨he, ?_⟩
    rw [he]
    simp [dictGet_dictSet]

/-- C10 witness: concrete instances with an existing and a fresh file. -/
theorem C10_witness :
    saveKML [("a.kml", "old")] "a.kml" false (fun _ => "new")
        = ⟨some "File a.kml exists and overwrite=False.", [("a.kml", "old")], false⟩
  ∧ dictGet (saveKML [("a.kml", "old")] "b.kml" false (fun _ => "new")).fs "b.kml"
        = some "new" :=
  ⟨(C10_saveKML [("a.kml", "old")] "a.kml" (fun _ => "new")).1 (by decide),
   ((C10_saveKML [("a.kml", "old")] "b.kml" (fun _ => "new")).2.1 (by decide)).2⟩

theorem strAppendAssoc (a b c : String) : a ++ b ++ c = a ++ (b ++ c) := by
  apply String.ext
  simp [data_append, List.append_assoc]

/-- C4 (amended): named-resource REST calls (`getResource`,
`getXMLResource`, `putResource`, `deleteResource`) resolve to
`{base_url}/xml/{package}/{resourcetype}/{resource_name}`, while the mapper
operation fetches (`getWaveform`, `getPreview`, station and event
`getList`) resolve to `{base_url}/{package}/{resourcetype}/{operation}`
with no `/xml` path segment before the query string. -/
theorem C4_url_paths (base pkg rt name : String) (kw : Kwargs) :
    fetchAddr base (getResource_url pkg rt name) kw
      = base ++ "/xml/" ++ pkg ++ "/" ++ rt ++ "/" ++ name ++ "?"
        ++ urlencode (fetchParams kw)
  ∧ putResource_url base pkg rt name = base ++ "/xml/" ++ pkg ++ "/" ++ rt ++ "/" ++ name
  ∧ fetchAddr base getWaveform_url kw
      = base ++ "/seismology/waveform/getWaveform" ++ "?" ++ urlencode (fetchParams kw)
  ∧ fetchAddr base getPreview_url kw
      = base ++ "/seismology/waveform/getPreview" ++ "?" ++ urlencode (fetchParams kw)
  ∧ fetchAddr base stationGetList_url kw
      = base ++ "/seismology/station/getList" ++ "?" ++ urlencode (fetchParams kw)
  ∧ fetchAddr base eventGetList_url kw
      = base ++ "/seismology/event/getList" ++ "?" ++ urlencode (fetchParams kw) := by
  refine ⟨?_, ?_, rfl, rfl, rfl, rfl⟩
  · apply String.ext
    simp [fetchAddr, remoteaddr, getResource_url, data_append, List.append_assoc]
  · show base ++ "/" ++ "xml" ++ "/" ++ pkg ++ "/" ++ rt ++ "/" ++ name = _
    rw [strAppendAssoc base "/" "xml", show ("/" ++ "xml" : String) = "/xml" from rfl,
        strAppendAssoc base "/xml" "/", show ("/xml" ++ "/" : String) = "/xml/" from rfl]

/-- C4 counterexample: the `getWaveform` fetch address is not of the form
`{base_url}/xml/{package}/{resourcetype}/{operation}?{querystring}` for any
choice of package, resourcetype and operation — its path starts with
`/seismology`, not `/xml`. -/
theorem C4_counterexample :
    ¬ ∃ pkg rt op : String,
        fetchAddr "http://teide" getWaveform_url []
          = "http://teide" ++ "/xml/" ++ pkg ++ "/" ++ rt ++ "/" ++ op ++ "?"
            ++ urlencode (fetchParams []) := by
  rintro ⟨pkg, rt, op, h⟩
  have hd : (fetchAddr "http://teide" getWaveform_url []).data.get? 13 = some 's' := rfl
  rw [h] at hd
  have hx : ("http://teide" ++ "/xml/" ++ pkg ++ "/" ++ rt ++ "/" ++ op ++ "?"
      ++ urlencode (fetchParams [])).data.get? 13 = some 'x' := rfl
  exact absurd (hx.symm.trans hd) (by decide)

/-- C7 (amended): with a channel/location filter active after wildcard
reset, a filter matching no channel-identifier node makes the extraction
fail with the `IndexError` of the empty xpath result (so no partial data is
returned); however, mismatched poles/zeros component lists are not
detected: `zip` silently pairs them up to the shorter length and the call
succeeds. -/
theorem C7_paz_extraction :
    (∀ (doc : List RespNode) (c l : String) (sg : Bool),
       (stripWildcards c ≠ "" ∨ stripWildcards l ≠ "") →
       afterFirstChan (stripWildcards c) (stripWildcards l) doc = none →
       getPAZextract doc c l sg = Except.error "IndexError: list index out of range")
  ∧ (∀ (doc : List RespNode) (c l : String) (sg : Bool) (rest : List RespNode)
       (d : PazData) (p : PAZ),
       (stripWildcards c ≠ "" ∨ stripWildcards l ≠ "") →
       afterFirstChan (stripWildcards c) (stripWildcards l) doc = some rest →
       firstPaz rest = some d →
       getPAZextract doc c l sg = Except.ok p →
       p.poles.length = min d.polesRe.length d.polesIm.length
       ∧ p.zeros.length = min d.zerosRe.length d.zerosIm.length) := by
  constructor
  · intro doc c l sg hf hafter
    rw [getPAZextract]
    rw [if_pos hf, hafter]
  · intro doc c l sg rest d p hf hafter hpaz hok
    rw [getPAZextract, if_pos hf, hafter] at hok
    dsimp only at hok
    cases h0 : firstSens 0 rest with
    | none =>
      cases h1 : firstSens 1 rest with
      | none => simp [getPAZfilterBranch, hpaz, h0, h1] at hok
      | some gg => simp [getPAZfilterBranch, hpaz, h0, h1] at hok
    | some sg0 =>
      cases h1 : firstSens 1 rest with
      | none => simp [getPAZfilterBranch, hpaz, h0, h1] at hok
      | some gg =>
        simp only [getPAZfilterBranch, hpaz, h0, h1] at hok
        injection hok with e
        subst e
        exact ⟨List.length_zip _ _, List.length_zip _ _⟩

/-- C7 counterexample: a poles block whose real component list has length 2
and imaginary component list length 1 is silently truncated — the call
returns a single paired pole with no error, where the claim requires a
malformed-metadata failure. -/
theorem C7_counterexample :
    getPAZextract
        [RespNode.chanId "EHZ" "",
         RespNode.paz ⟨[1, 2], [3], [0], [0], 60⟩,
         RespNode.sens 0 25168, RespNode.sens 1 400] "EHZ" "" false
      = Except.ok ⟨[(1, 3)], [(0, 0)], 60, 25168, none⟩ := rfl

/-- C7 witness: concrete instances of the amended theorem — an unmatched
filter fails with the index error, and a mismatched poles block yields
`min`-truncated pairs. -/
theorem C7_witness :
    getPAZextract [] "EHZ" "" false = Except.error "IndexError: list index out of range"
  ∧ (⟨[(1, 3)], [(0, 0)], 60, 25168, none⟩ : PAZ).poles.length = min 2 1 :=
  ⟨C7_paz_extraction.1 [] "EHZ" "" false (Or.inl (by decide)) rfl,
   (C7_paz_extraction.2
      [RespNode.chanId "EHZ" "",
       RespNode.paz ⟨[1, 2], [3], [0], [0], 60⟩,
       RespNode.sens 0 25168, RespNode.sens 1 400] "EHZ" "" false
      [RespNode.paz ⟨[1, 2], [3], [0], [0], 60⟩,
       RespNode.sens 0 25168, RespNode.sens 1 400]
      ⟨[1, 2], [3], [0], [0], 60⟩
      ⟨[(1, 3)], [(0, 0)], 60, 25168, none⟩
      (Or.inl (by decide)) rfl rfl rfl).1⟩

theorem round_mono_rat {x y : ℚ} (h : x ≤ y) : round x ≤ round y := by
  rw [round_eq, round_eq]
  exact Int.floor_mono (by linarith)

theorem trim_bounds (st : StreamSpan) (a b : ℚ) (hd : 0 < st.delta)
    (h1 : st.t0 ≤ a) (hab : a ≤ b) (h2 : b ≤ st.lastTime) :
    |(st.trim a b).t0 - a| ≤ st.delta / 2
  ∧ |(st.trim a b).lastTime - b| ≤ st.delta / 2 := by
  have hne : st.delta ≠ 0 := ne_of_gt hd
  set ra := (a - st.t0) / st.delta with hra
  set rb := (b - st.t0) / st.delta with hrb
  have hra0 : 0 ≤ ra := div_nonneg (by linarith) hd.le
  have hrab : ra ≤ rb := by
    rw [hra, hrb]
    exact (div_le_div_iff_of_pos_right hd).mpr (by linarith)
  have hrbN : rb ≤ (((st.npts : ℤ) - 1 : ℤ) : ℚ) := by
    rw [hrb, div_le_iff₀ hd]
    have h2' := h2
    rw [StreamSpan.lastTime] at h2'
    linarith
  have hraN : ra ≤ (((st.npts : ℤ) - 1 : ℤ) : ℚ) := le_trans hrab hrbN
  have hi0 : 0 ≤ round ra := by
    have h0 := round_mono_rat hra0
    simpa using h0
  have hiN : round ra ≤ (st.npts : ℤ) - 1 := by
    have h0 := round_mono_rat hraN
    rwa [round_intCast] at h0
  have hj0 : 0 ≤ round rb := le_trans hi0 (round_mono_rat hrab)
  have hjN : round rb ≤ (st.npts : ℤ) - 1 := by
    have h0 := round_mono_rat hrbN
    rwa [round_intCast] at h0
  have hij : round ra ≤ round rb := round_mono_rat hrab
  have hia : st.nearestIdx a = round ra := by
    rw [StreamSpan.nearestIdx, ← hra, min_eq_right hiN, max_eq_right hi0]
  have hib : st.nearestIdx b = round rb := by
    rw [StreamSpan.nearestIdx, ← hrb, min_eq_right hjN, max_eq_right hj0]
  have ht0 : (st.trim a b).t0 = st.t0 + (round ra : ℚ) * st.delta := by
    show st.t0 + (st.nearestIdx a : ℚ) * st.delta = _
    rw [hia]
  have hnpts : (((st.trim a b).npts : ℤ) : ℚ) = ((round rb - round ra + 1 : ℤ) : ℚ) := by
    show (((st.nearestIdx b - st.nearestIdx a + 1).toNat : ℤ) : ℚ) = _
    rw [hia, hib, Int.toNat_of_nonneg (by omega)]
  have hlast : (st.trim a b).lastTime = st.t0 + (round rb : ℚ) * st.delta := by
    rw [StreamSpan.lastTime]
    have hdelta : (st.trim a b).delta = st.delta := rfl
    rw [hdelta]
    push_cast
    push_cast at hnpts
    rw [hnpts, ht0]
    ring
  have hbound : ∀ (r : ℤ) (x t : ℚ), x * st.delta = t - st.t0 → |(x - (r : ℚ))| ≤ 1 / 2 →
      |st.t0 + (r : ℚ) * st.delta - t| ≤ st.delta / 2 := by
    intro r x t hx habs
    have he : st.t0 + (r : ℚ) * st.delta - t = ((r : ℚ) - x) * st.delta := by
      rw [sub_mul, hx]
      ring
    calc |st.t0 + (r : ℚ) * st.delta - t| = |(r : ℚ) - x| * st.delta := by
          rw [he, abs_mul, abs_of_pos hd]
      _ ≤ (1 / 2) * st.delta := by
          apply mul_le_mul_of_nonneg_right _ hd.le
          rw [abs_sub_comm]
          exact habs
      _ = st.delta / 2 := by ring
  constructor
  · rw [ht0]
    exact hbound _ ra a (div_mul_cancel₀ _ hne) (abs_sub_round ra)
  · rw [hlast]
    exact hbound _ rb b (div_mul_cancel₀ _ hne) (abs_sub_round rb)

/-- C2: with a channel given, `getWaveform` fetches the requested window
`[s, e]` padded on both ends by exactly `2 / BAND_CODE[band_code]` seconds
(a strictly larger window when the rate is positive) and trims the returned
stream back to the original `(s, e)` with nearest-sample alignment; for any
stream covering the requested window the trimmed bounds agree with the
requested window to within half a sample interval. -/
theorem C2_waveform_pad_trim (channel : String) (s e r : ℚ) (st : StreamSpan)
    (hch : channel ≠ "") (hr : bandRate channel = some r) (hrpos : 0 < r)
    (hse : s ≤ e) (hd : 0 < st.delta) (h1 : st.t0 ≤ s) (h2 : e ≤ st.lastTime) :
    getWaveformPlan channel s e = some ⟨s - 2 / r, e + 2 / r, some (s, e)⟩
  ∧ s - 2 / r < s ∧ e < e + 2 / r
  ∧ |(st.trim s e).t0 - s| ≤ st.delta / 2
  ∧ |(st.trim s e).lastTime - e| ≤ st.delta / 2 := by
  have hpad : 0 < 2 / r := by positivity
  refine ⟨?_, by linarith, by linarith, (trim_bounds st s e hd h1 hse h2).1,
    (trim_bounds st s e hd h1 hse h2).2⟩
  rw [getWaveformPlan, if_neg hch, hr]

/-- C2 witness: channel `"EHZ"` (band code `E`, nominal rate 80), window
`[0, 20]`, and a stream at 100 Hz covering the window. -/
theorem C2_witness :
    getWaveformPlan "EHZ" 0 20 = some ⟨0 - 2 / 80, 20 + 2 / 80, some (0, 20)⟩
  ∧ (0 : ℚ) - 2 / 80 < 0 ∧ (20 : ℚ) < 20 + 2 / 80
  ∧ |(StreamSpan.trim ⟨-1, 1/100, 2200⟩ 0 20).t0 - 0| ≤ (1 / 100) / 2
  ∧ |(StreamSpan.trim ⟨-1, 1/100, 2200⟩ 0 20).lastTime - 20| ≤ (1 / 100) / 2 :=
  C2_waveform_pad_trim "EHZ" 0 20 80 ⟨-1, 1/100, 2200⟩ (by decide) rfl (by norm_num)
    (by norm_num) (by norm_num) (by norm_num)
    (by rw [StreamSpan.lastTime]; push_cast; norm_num)

/-- C9: KML placemark rendering — with `nolabels` the name is empty; with
labels and no magnitude the name is the date (the part of the stringified
datetime before the first space); with a magnitude the name is
`"<date>: <magnitude to 1 decimal>"` (magnitude 5.0 and date 2020-01-01
give "2020-01-01: 5.0"); coordinates are rendered as
longitude,latitude with 10 decimal places each, followed by ",0". -/
theorem C9_kml_rendering :
    (∀ ev : EventRecord, placemarkName true ev = "")
  ∧ (∀ (d : String) (lon lat : ℚ), placemarkName false ⟨d, none, lon, lat⟩ = pySplitFirst d)
  ∧ (∀ (d : String) (m lon lat : ℚ),
       placemarkName false ⟨d, some m, lon, lat⟩ = pySplitFirst d ++ ": " ++ formatFixed 1 m)
  ∧ placemarkName false ⟨"2020-01-01 12:00:00", some 5, 0, 0⟩ = "2020-01-01: 5.0"
  ∧ (∀ ev : EventRecord, placemarkCoordinates ev
       = formatFixed 10 ev.longitude ++ "," ++ formatFixed 10 ev.latitude ++ ",0")
  ∧ placemarkCoordinates ⟨"1970-01-01", none, 25/2, 193/4⟩
       = "12.5000000000,48.2500000000,0" := by
  have hf1 : formatFixed 1 5 = "5.0" := by
    have h : roundHalfEven ((5 : ℚ) * 10 ^ 1) = 50 := by
      rw [roundHalfEven]
      norm_num
    rw [formatFixed, h]
    norm_num
    decide
  have hf2 : formatFixed 10 (25/2) = "12.5000000000" := by
    have h : roundHalfEven ((25 / 2 : ℚ) * 10 ^ 10) = 125000000000 := by
      rw [roundHalfEven]
      norm_num
    rw [formatFixed, h]
    norm_num
    decide
  have hf3 : formatFixed 10 (193/4) = "48.2500000000" := by
    have h : roundHalfEven ((193 / 4 : ℚ) * 10 ^ 10) = 482500000000 := by
      rw [roundHalfEven]
      norm_num
    rw [formatFixed, h]
    norm_num
    decide
  refine ⟨fun ev => rfl, fun d lon lat => rfl, fun d m lon lat => rfl, ?_,
    fun ev => rfl, ?_⟩
  · show pySplitFirst "2020-01-01 12:00:00" ++ ": " ++ formatFixed 1 5 = "2020-01-01: 5.0"
    rw [hf1, show pySplitFirst "2020-01-01 12:00:00" = "2020-01-01" from by decide]
    decide
  · show formatFixed 10 (25/2) ++ "," ++ formatFixed 10 (193/4) ++ ",0"
        = "12.5000000000,48.2500000000,0"
    rw [hf2, hf3]
    decide
